import Mathlib

/-!
Verification development for the draw-io-mcp auto-layout core.

The TypeScript sources are embedded shallowly:
  * JavaScript `Map<string, V>` values become insertion-ordered association
    lists (`set` replaces the value of an existing key in place, otherwise
    appends; iteration follows the list order, matching JS insertion order).
  * JavaScript numbers become exact rationals (`ℚ`); all constants appearing
    in the sources (7.5, 1.05, 1.3, …) are exactly representable.
  * The `while` loop of the flowchart BFS becomes fuel-based recursion; the
    fuel supplied by `flowchartLayout` dominates the total number of queue
    pops the JS loop can perform (each node enqueues children only on its
    first visit), so the model empties the queue exactly as the source does.
  * A JavaScript runtime TypeError (dereferencing `undefined` produced by
    `shapes.get(id)!` for an id absent from `shapes`) is modelled by the
    layout function returning `none`.
All definitions follow `src/utils/layout-algorithms.ts`,
`src/utils/diagram-parser.ts`, `src/utils/text-sizing.ts` and
`src/utils/style-generator.ts`.
-/

namespace DrawioMcp

/-! ### JavaScript `Map` model -/

/-- Lookup in an insertion-ordered association list (JS `Map.get`). -/
def mapGet {κ β : Type} [DecidableEq κ] (m : List (κ × β)) (k : κ) : Option β :=
  (m.find? (fun p => decide (p.1 = k))).map (·.2)

/-- Key-membership test (JS `Map.has`). -/
def mapHasKey {κ β : Type} [DecidableEq κ] (m : List (κ × β)) (k : κ) : Bool :=
  (mapGet m k).isSome

/-- JS `Map.set`: replace the value of an existing key in place (keeping its
insertion position), otherwise append the new binding at the end. -/
def mapSet {κ β : Type} [DecidableEq κ] (m : List (κ × β)) (k : κ) (v : β) :
    List (κ × β) :=
  match m with
  | [] => [(k, v)]
  | (k', v') :: rest =>
      if k' = k then (k', v) :: rest else (k', v') :: mapSet rest k v

/-- The keys of a map, in insertion order. -/
def mapKeys {κ β : Type} (m : List (κ × β)) : List κ :=
  m.map (·.1)

/-- Building a JS `Map` by `set`-ting a sequence of bindings into an
initially empty map. -/
def buildMap {κ β : Type} [DecidableEq κ] (l : List (κ × β)) : List (κ × β) :=
  l.foldl (fun m p => mapSet m p.1 p.2) []

/-! ### Data model (`src/utils/diagram-parser.ts` interfaces) -/

/-- The `ParsedShape` interface. -/
structure ParsedShape where
  id : String
  text : String
  type : String
  x : ℚ
  y : ℚ
  width : ℚ
  height : ℚ
deriving DecidableEq, Repr

/-- The `ParsedEdge` interface. -/
structure ParsedEdge where
  id : String
  source : String
  target : String
  label : String
deriving DecidableEq, Repr

/-- The `DiagramGraph` interface: the shapes map, the edge list, and the two
adjacency-index maps. -/
structure DiagramGraph where
  shapes : List (String × ParsedShape)
  edges : List ParsedEdge
  outgoing : List (String × List String)
  incoming : List (String × List String)
deriving DecidableEq, Repr

/-! ### Text sizing (`src/utils/text-sizing.ts`) -/

/-- The constant `CHAR_WIDTH = 7.5`. -/
def CHAR_WIDTH : ℚ := 7.5

/-- The constant `LINE_HEIGHT = 24`. -/
def LINE_HEIGHT : ℚ := 24

/-- The constant `HORIZONTAL_PADDING = 52`. -/
def HORIZONTAL_PADDING : ℚ := 52

/-- The constant `VERTICAL_PADDING = 28`. -/
def VERTICAL_PADDING : ℚ := 28

/-- The constant `MIN_WIDTH = 80`. -/
def MIN_WIDTH : ℚ := 80

/-- The constant `MIN_HEIGHT = 40`. -/
def MIN_HEIGHT : ℚ := 40

/-- The `SHAPE_PADDING_MULTIPLIER` record, as the runtime property lookup
`SHAPE_PADDING_MULTIPLIER[shapeType]`: `none` models an absent property
(an unrecognized kind string). -/
def SHAPE_PADDING_MULTIPLIER : String → Option ℚ
  | "rectangle" => some 1.05
  | "step" => some 1.1
  | "parallelogram" => some 1.15
  | "trapezoid" => some 1.15
  | "cylinder" => some 1.3
  | "hexagon" => some 1.3
  | "triangle" => some 1.6
  | "ellipse" => some 1.4
  | "cloud" => some 1.5
  | "rhombus" => some 1.8
  | _ => none

/-- The multiplier chosen by `calculateTextDimensions`:
`shapeType ? (SHAPE_PADDING_MULTIPLIER[shapeType] ?? 1.0) : 1.0`. -/
def shapeMultiplier (shapeType : Option String) : ℚ :=
  match shapeType with
  | some k => (SHAPE_PADDING_MULTIPLIER k).getD 1
  | none => 1

/-- Result record of the text-sizing functions. -/
structure TextDims where
  width : ℚ
  height : ℚ
deriving DecidableEq, Repr

/-- One step of the line loop of `calculateTextDimensions`: the running state
is `(maxLineWidth, totalLines)`; `totalLines` is an integer because
`Math.ceil` of the wrapped-line quotient is accumulated directly. -/
def textLineStep (maxWidth : ℚ) (st : ℚ × ℤ) (line : String) : ℚ × ℤ :=
  let lineWidth : ℚ := (line.length : ℚ) * CHAR_WIDTH
  if lineWidth > maxWidth - HORIZONTAL_PADDING then
    let effectiveMaxWidth := maxWidth - HORIZONTAL_PADDING
    let wrappedLines : ℤ := ⌈lineWidth / effectiveMaxWidth⌉
    (max st.1 effectiveMaxWidth, st.2 + wrappedLines)
  else
    (max st.1 lineWidth, st.2 + 1)

/-- The function `calculateTextDimensions(text, maxWidth = 320, shapeType?)`. -/
def calculateTextDimensions (text : String) (maxWidth : ℚ := 320)
    (shapeType : Option String := none) : TextDims :=
  let normalizedText := text.replace "\\n" "\n"
  let lines := normalizedText.splitOn "\n"
  let st := lines.foldl (textLineStep maxWidth) (0, 0)
  let width := max MIN_WIDTH (st.1 + HORIZONTAL_PADDING)
  let multiplier := shapeMultiplier shapeType
  let height := max MIN_HEIGHT ((⌈((st.2 : ℚ) * LINE_HEIGHT + VERTICAL_PADDING) * multiplier⌉ : ℤ) : ℚ)
  ⟨width, height⟩

/-! ### Style generation and shape-kind classification -/

/-- JS `String.prototype.includes`: substring containment. -/
def strIncludes (s pat : String) : Bool :=
  decide (pat.data <:+: s.data)

/-- The `getShapeStyle` base-style table of `src/utils/style-generator.ts`,
followed by the common style suffix that function appends. -/
def getShapeStyle (shapeType : String) (fillColor : String := "#dae8fc")
    (strokeColor : String := "#6c8ebf") : String :=
  let baseStyle :=
    match shapeType with
    | "rectangle" => "rounded=0"
    | "ellipse" => "ellipse"
    | "rhombus" => "rhombus"
    | "cylinder" => "shape=cylinder3"
    | "hexagon" => "shape=hexagon"
    | "cloud" => "ellipse;shape=cloud"
    | "step" => "shape=step"
    | "parallelogram" => "shape=parallelogram"
    | "trapezoid" => "shape=trapezoid"
    | "triangle" => "triangle"
    | _ => "rounded=0"
  baseStyle ++ ";whiteSpace=wrap;html=1;fillColor=" ++ fillColor ++
    ";strokeColor=" ++ strokeColor ++
    ";fontSize=12;align=left;verticalAlign=top;spacingLeft=8;spacingRight=8;spacingTop=6;spacingBottom=6;"

/-- The shape-kind classification chain of `parseDiagram`
(`src/utils/diagram-parser.ts`, lines 48–56): an ordered sequence of
substring tests over the style descriptor, defaulting to `rectangle`. -/
def classifyShapeType (style : String) : String :=
  if strIncludes style "ellipse" then "ellipse"
  else if strIncludes style "rhombus" then "rhombus"
  else if strIncludes style "cylinder" then "cylinder"
  else if strIncludes style "hexagon" then "hexagon"
  else if strIncludes style "cloud" then "cloud"
  else if strIncludes style "parallelogram" then "parallelogram"
  else if strIncludes style "trapezoid" then "trapezoid"
  else if strIncludes style "triangle" then "triangle"
  else "rectangle"

/-! ### Graph extraction (`parseDiagram`, `src/utils/diagram-parser.ts`)

The regex-scanning layer of `parseDiagram` yields one record per matched
`mxCell` element; we model the document at that record level (a shape record
carries the captured id/value/style and its geometry quadruple after
`parseFloat`, an edge record the captured id/value/source/target) and embed
the loop bodies that build the graph from the matches verbatim.  The
alternate edge regex is a second scan producing the same record shape, so it
needs no separate model. -/

/-- A shape record: the capture groups of one `shapeRegex` match. -/
structure ShapeRecord where
  id : String
  value : String
  style : String
  x : ℚ
  y : ℚ
  width : ℚ
  height : ℚ
deriving DecidableEq, Repr

/-- An edge record: the capture groups of one `edgeRegex` match. -/
structure EdgeRecord where
  id : String
  value : String
  source : String
  target : String
deriving DecidableEq, Repr

/-- Body of the shape loop of `parseDiagram`: classify the style, store the
shape, and initialize both adjacency lists for its id. -/
def addShapeRecord (st : DiagramGraph) (r : ShapeRecord) : DiagramGraph :=
  let shapeType := classifyShapeType r.style
  { st with
    shapes := mapSet st.shapes r.id
      ⟨r.id, r.value, shapeType, r.x, r.y, r.width, r.height⟩
    outgoing := mapSet st.outgoing r.id []
    incoming := mapSet st.incoming r.id [] }

/-- Body of the edge loop of `parseDiagram`: always append the edge, and push
into an adjacency list only when the corresponding endpoint key exists. -/
def addEdgeRecord (st : DiagramGraph) (r : EdgeRecord) : DiagramGraph :=
  { st with
    edges := st.edges ++ [⟨r.id, r.source, r.target, r.value⟩]
    outgoing :=
      if mapHasKey st.outgoing r.source then
        mapSet st.outgoing r.source
          ((mapGet st.outgoing r.source).getD [] ++ [r.target])
      else st.outgoing
    incoming :=
      if mapHasKey st.incoming r.target then
        mapSet st.incoming r.target
          ((mapGet st.incoming r.target).getD [] ++ [r.source])
      else st.incoming }

/-- The graph-building part of `parseDiagram`, over the records matched by
the scanning layer. -/
def parseDiagramRecords (shapeRecs : List ShapeRecord)
    (edgeRecs : List EdgeRecord) : DiagramGraph :=
  let afterShapes := shapeRecs.foldl addShapeRecord ⟨[], [], [], []⟩
  edgeRecs.foldl addEdgeRecord afterShapes

/-! ### Layout algorithms (`src/utils/layout-algorithms.ts`) -/

/-- The `LayoutOptions` interface. -/
structure LayoutOptions where
  spacing : ℚ
  startX : ℚ
  startY : ℚ
deriving DecidableEq, Repr

/-- One entry of a `LayoutResult` map.  The named revision's `LayoutResult`
type is `Map<string, { x; y }>`; the position applicator
(`updateShapePositions`) accepts optional `width`/`height` per entry, so the
entry is modelled with `Option` fields, `none` meaning the property is absent
from the emitted object literal. -/
structure LayoutEntry where
  x : ℚ
  y : ℚ
  width : Option ℚ := none
  height : Option ℚ := none
deriving DecidableEq, Repr

/-- The layout direction argument of `flowchartLayout`. -/
inductive Direction where
  | vertical
  | horizontal
deriving DecidableEq, Repr

/-- The grid comparator, as the `le` predicate of a stable sort (a JS stable
`Array.sort(cmp)` keeps `a` before `b` exactly when `cmp(a, b) ≤ 0`):
primary key is y with a 50-unit same-row threshold, secondary key is x. -/
def gridSortLe (a b : ParsedShape) : Bool :=
  let yDiff := a.y - b.y
  let c := if |yDiff| > 50 then yDiff else a.x - b.x
  decide (c ≤ 0)

/-- JS `Math.ceil(Math.sqrt(n))` for a natural shape count. -/
def ceilSqrt (n : Nat) : Nat :=
  let s := Nat.sqrt n
  if s * s = n then s else s + 1

/-- The grid cell assignment for the sorted shape at `p = (index, shape)`:
row-major placement with uniform cell advance. -/
def gridEntry (options : LayoutOptions) (columns : Nat)
    (maxWidth maxHeight : ℚ) (p : Nat × ParsedShape) : String × LayoutEntry :=
  let index := p.1
  let shape := p.2
  let row := index / columns
  let col := index % columns
  (shape.id,
    { x := options.startX + (col : ℚ) * (maxWidth + options.spacing)
      y := options.startY + (row : ℚ) * (maxHeight + options.spacing) })

/-- The function `gridLayout` (named revision, lines 19–58): sort by position
hint, tile into a `ceil(sqrt(n))`-column grid with uniform cell advance given
by the global maximum width/height, emitting `{x, y}` per shape. -/
def gridLayout (graph : DiagramGraph) (options : LayoutOptions) :
    List (String × LayoutEntry) :=
  let shapes := (graph.shapes.map (·.2)).mergeSort gridSortLe
  let columns := ceilSqrt shapes.length
  let maxWidth := shapes.foldl (fun acc s => max acc s.width) 0
  let maxHeight := shapes.foldl (fun acc s => max acc s.height) 0
  buildMap (shapes.enum.map (gridEntry options columns maxWidth maxHeight))

/-- Placeholder shape backing the model of a `shapes.get(id)!` lookup; every
use below is guarded so that the placeholder never flows into a result. -/
def defaultShape : ParsedShape := ⟨"", "", "", 0, 0, 0, 0⟩

/-- The fallback-root comparator of Step 1 as a stable-sort `le`: topmost
shape first for a vertical flow, leftmost first for a horizontal flow. -/
def shapeHintLe (dir : Direction) (a b : ParsedShape) : Bool :=
  match dir with
  | .vertical => decide (a.y - b.y ≤ 0)
  | .horizontal => decide (a.x - b.x ≤ 0)

/-- The root comparator of Step 1 as a stable-sort `le`: roots sort by
cross-axis position hint (the source's `shapes.get(...)!` is modelled with a
guarded placeholder; roots always resolve). -/
def rootSortLe (g : DiagramGraph) (dir : Direction) (a b : String) : Bool :=
  let shapeA := (mapGet g.shapes a).getD defaultShape
  let shapeB := (mapGet g.shapes b).getD defaultShape
  match dir with
  | .vertical => decide (shapeA.x - shapeB.x ≤ 0)
  | .horizontal => decide (shapeA.y - shapeB.y ≤ 0)

/-- Step 1 of `flowchartLayout`: ids with an empty (or absent) incoming list
are roots; if there are none, fall back to the topmost/leftmost shape; then
sort roots by cross-axis position hint. -/
def flowchartRoots (g : DiagramGraph) (dir : Direction) : List String :=
  let roots := (g.shapes.map (·.1)).filter
    (fun id => ((mapGet g.incoming id).getD []).isEmpty)
  let roots :=
    if roots.isEmpty then
      match (g.shapes.map (·.2)).mergeSort (shapeHintLe dir) with
      | [] => []
      | s :: _ => [s.id]
    else roots
  roots.mergeSort (rootSortLe g dir)

/-- A BFS queue item `{ id, level, lane }`. -/
structure QueueEntry where
  id : String
  level : Nat
  lane : Nat
deriving DecidableEq, Repr

/-- The mutable state of the BFS of Step 2. -/
structure BfsState where
  queue : List QueueEntry
  visited : List String
  levels : List (String × Nat)
  swimLanes : List (String × Nat)
deriving Repr

/-- The child comparator of Step 2 as a stable-sort `le`: children sort by
cross-axis position hint, and compare equal when either shape is absent. -/
def childSortLe (shapes : List (String × ParsedShape)) (dir : Direction)
    (a b : String) : Bool :=
  match mapGet shapes a, mapGet shapes b with
  | some shapeA, some shapeB =>
      match dir with
      | .vertical => decide (shapeA.x - shapeB.x ≤ 0)
      | .horizontal => decide (shapeA.y - shapeB.y ≤ 0)
  | _, _ => true

/-- The body of the `while (queue.length > 0)` loop of Step 2, for a popped
item `e` and remaining queue `rest`.  On a revisit the recorded level is only
ever raised; on a first visit the level and lane are recorded and the
children are enqueued, siblings fanning out into distinct lanes when there
are several. -/
def bfsStep (shapes : List (String × ParsedShape))
    (outgoing : List (String × List String)) (dir : Direction)
    (st : BfsState) (e : QueueEntry) (rest : List QueueEntry) : BfsState :=
  if e.id ∈ st.visited then
    let existingLevel := (mapGet st.levels e.id).getD 0
    let levels' :=
      if existingLevel < e.level then mapSet st.levels e.id e.level
      else st.levels
    { st with queue := rest, levels := levels' }
  else
    let visited' := e.id :: st.visited
    let levels' := mapSet st.levels e.id e.level
    let lanes' := mapSet st.swimLanes e.id e.lane
    let children := (mapGet outgoing e.id).getD []
    let sortedChildren := children.mergeSort (childSortLe shapes dir)
    let newEntries := sortedChildren.enum.map fun p =>
      { id := p.2, level := e.level + 1
        lane := if 1 < sortedChildren.length then e.lane + p.1 else e.lane }
    ⟨rest ++ newEntries, visited', levels', lanes'⟩

/-- The `while (queue.length > 0)` loop of Step 2, with explicit fuel. -/
def bfsRun (shapes : List (String × ParsedShape))
    (outgoing : List (String × List String)) (dir : Direction) :
    Nat → BfsState → BfsState
  | 0, st => st
  | fuel + 1, st =>
    match st.queue with
    | [] => st
    | e :: rest => bfsRun shapes outgoing dir fuel (bfsStep shapes outgoing dir st e rest)

/-- Fuel dominating the number of queue pops the JS loop performs: each node
enqueues children only on its first visit, so at most
`|roots| + Σ |outgoing(id)| ≤ |shapes| + Σ |outgoing(id)|` items ever enter
the queue. -/
def bfsFuel (g : DiagramGraph) : Nat :=
  g.shapes.length + (g.outgoing.map (fun p => p.2.length)).sum + 1

/-- The initial BFS state: one queue item per sorted root, at level 0, with
the root's index as its lane. -/
def bfsInitState (g : DiagramGraph) (dir : Direction) : BfsState :=
  ⟨(flowchartRoots g dir).enum.map (fun p => ⟨p.2, 0, p.1⟩), [], [], []⟩

/-- The BFS state when the queue has been drained. -/
def bfsFinalState (g : DiagramGraph) (dir : Direction) : BfsState :=
  bfsRun g.shapes g.outgoing dir (bfsFuel g) (bfsInitState g dir)

/-- Body of the disconnected-shapes loop: an unvisited shape id is recorded
at `currentMaxLevel + 1` (the running maximum of all recorded levels and 0),
lane 0. -/
def discStep (acc : BfsState) (id : String) : BfsState :=
  if id ∈ acc.visited then acc
  else
    let maxLevel := (acc.levels.map (·.2)).foldl max 0
    { acc with
      levels := mapSet acc.levels id (maxLevel + 1)
      swimLanes := mapSet acc.swimLanes id 0 }

/-- The disconnected-shapes pass after the BFS: every unvisited shape is
appended at `currentMaxLevel + 1`, lane 0, one after the other. -/
def assignDisconnected (g : DiagramGraph) (st : BfsState) : BfsState :=
  (g.shapes.map (·.1)).foldl discStep st

/-- The complete level/lane assignment of `flowchartLayout` (Steps 1, 2 and
the disconnected pass). -/
def leveledState (g : DiagramGraph) (dir : Direction) : BfsState :=
  assignDisconnected g (bfsFinalState g dir)

/-- The final level map recorded by `flowchartLayout` for a graph. -/
def flowchartLevels (g : DiagramGraph) (dir : Direction) :
    List (String × Nat) :=
  (leveledState g dir).levels

/-- Body of the grouping loop of Step 3 for one levels entry: push the
entry's shape onto its level's group (creating the group when absent, as the
source's `levelGroups.set(level, [])` guard does). -/
def groupStep (shapes : List (String × ParsedShape))
    (groups : List (Nat × List ParsedShape)) (p : String × Nat) :
    List (Nat × List ParsedShape) :=
  let shape := (mapGet shapes p.1).getD defaultShape
  mapSet groups p.2 ((mapGet groups p.2).getD [] ++ [shape])

/-- Step 3: group shapes by level, iterating the levels map in insertion
order.  The source looks each id up with `shapes.get(id)!`; the guarded
placeholder is eliminated by the resolvability check in `flowchartLayout`. -/
def buildLevelGroups (shapes : List (String × ParsedShape))
    (levels : List (String × Nat)) : List (Nat × List ParsedShape) :=
  levels.foldl (groupStep shapes) []

/-- The within-level comparator of Step 4 as a stable-sort `le`: by swim
lane, then by cross-axis position hint. -/
def groupSortLe (swimLanes : List (String × Nat)) (dir : Direction)
    (a b : ParsedShape) : Bool :=
  let laneA := (mapGet swimLanes a.id).getD 0
  let laneB := (mapGet swimLanes b.id).getD 0
  if laneA ≠ laneB then decide ((laneA : ℚ) - (laneB : ℚ) ≤ 0)
  else
    match dir with
    | .vertical => decide (a.x - b.x ≤ 0)
    | .horizontal => decide (a.y - b.y ≤ 0)

/-- Step 6: shift every position by the deficit when the minimum x or y falls
below the configured start (the JS code folds the minima starting from
`Infinity`, so an empty map is left unchanged).  The shifted entries are
rebuilt as `{x, y}` object literals, matching the source. -/
def normalizePositions (startX startY : ℚ)
    (positions : List (String × LayoutEntry)) : List (String × LayoutEntry) :=
  match positions.map (·.2.x), positions.map (·.2.y) with
  | x0 :: xr, y0 :: yr =>
    let minX := xr.foldl min x0
    let minY := yr.foldl min y0
    if minX < startX ∨ minY < startY then
      let offsetX := if minX < startX then startX - minX else 0
      let offsetY := if minY < startY then startY - minY else 0
      positions.map (fun p => (p.1, ⟨p.2.x + offsetX, p.2.y + offsetY, none, none⟩))
    else positions
  | _, _ => positions

/-- The Step 5 placement of one group member `p = (index, shape)` of the
group of `level`, given the sizing quantities in scope at that point of the
source. -/
def placeGroupEntry (options : LayoutOptions) (dir : Direction)
    (maxWidth maxHeight effectiveSpacing effectiveVerticalSpacing : ℚ)
    (level : Nat) (groupLength : Nat) (groupWidth : ℚ)
    (p : Nat × ParsedShape) : String × LayoutEntry :=
  let index := p.1
  let shape := p.2
  let staggerOffset : ℚ :=
    if 3 ≤ groupLength then
      let middleIndex := ((groupLength : ℚ) - 1) / 2
      let distanceFromMiddle := |(index : ℚ) - middleIndex|
      (middleIndex - distanceFromMiddle) * (maxHeight * 0.4)
    else 0
  match dir with
  | .vertical =>
    let groupStartX := options.startX +
      (if groupWidth > 0 then -groupWidth / 2 + maxWidth / 2 else 0)
    (shape.id,
      ({ x := groupStartX + (index : ℚ) * (maxWidth + effectiveSpacing)
         y := options.startY +
           (level : ℚ) * (maxHeight + effectiveVerticalSpacing) +
           staggerOffset } : LayoutEntry))
  | .horizontal =>
    let groupStartY := options.startY +
      (if groupWidth > 0 then -groupWidth / 2 + maxHeight / 2 else 0)
    (shape.id,
      ({ x := options.startX +
           (level : ℚ) * (maxWidth + effectiveVerticalSpacing) +
           staggerOffset
         y := groupStartY + (index : ℚ) * (maxHeight + effectiveSpacing) } :
        LayoutEntry))

/-- The Step 5 placement of one whole level group. -/
def placeGroup (options : LayoutOptions) (dir : Direction)
    (maxWidth maxHeight effectiveSpacing effectiveVerticalSpacing : ℚ)
    (level : Nat) (group : List ParsedShape) : List (String × LayoutEntry) :=
  let groupWidth :=
    (group.length : ℚ) * (maxWidth + effectiveSpacing) - effectiveSpacing
  group.enum.map
    (placeGroupEntry options dir maxWidth maxHeight effectiveSpacing
      effectiveVerticalSpacing level group.length groupWidth)

/-- Step 5 of `flowchartLayout`: place each level's group along the main
axis, centering the group on the cross axis and staggering parallel rows of
three or more. -/
def placeLevelGroups (g : DiagramGraph) (options : LayoutOptions)
    (dir : Direction) (groups : List (Nat × List ParsedShape)) :
    List (String × LayoutEntry) :=
  let sortedLevels := (groups.map (·.1)).mergeSort (fun a b => decide (a ≤ b))
  let maxWidth := (g.shapes.map (·.2)).foldl (fun acc s => max acc s.width) 0
  let maxHeight := (g.shapes.map (·.2)).foldl (fun acc s => max acc s.height) 0
  let maxShapesAtLevel := groups.foldl (fun acc p => max acc p.2.length) 1
  let effectiveSpacing :=
    if 2 < maxShapesAtLevel then options.spacing * 1.5 else options.spacing
  let effectiveVerticalSpacing :=
    if 2 < maxShapesAtLevel then options.spacing * 1.3 else options.spacing
  sortedLevels.foldl
    (fun acc level =>
      acc ++ placeGroup options dir maxWidth maxHeight effectiveSpacing
        effectiveVerticalSpacing level ((mapGet groups level).getD []))
    []

/-- The function `flowchartLayout` (named revision, lines 65–270).  A `none`
result models the runtime `TypeError` the source raises when an id recorded
in the levels map does not resolve in `shapes` (its `shapes.get(id)!` yields
`undefined`, whose `.id` access in Step 4/5 throws). -/
def flowchartLayout (g : DiagramGraph) (options : LayoutOptions)
    (dir : Direction := .vertical) : Option (List (String × LayoutEntry)) :=
  if g.shapes.isEmpty then some []
  else
    let st := leveledState g dir
    if st.levels.all (fun p => mapHasKey g.shapes p.1) then
      let groups := buildLevelGroups g.shapes st.levels
      let groups := groups.map
        (fun p => (p.1, p.2.mergeSort (groupSortLe st.swimLanes dir)))
      let placed := placeLevelGroups g options dir groups
      some (normalizePositions options.startX options.startY (buildMap placed))
    else none

/-! ### Well-formedness of a graph value

A `DiagramGraph` delivered by the extractor keys every shape by its own id
(JS `Map` keys are unique), and the coverage property of the layouts depends
on the adjacency lists mentioning only present shapes — the property claim
C6 shows the extractor does not actually guarantee. -/

/-- Keys of the shapes map are unique and each shape is keyed by its id. -/
def ShapesWF (g : DiagramGraph) : Prop :=
  (mapKeys g.shapes).Nodup ∧ ∀ p ∈ g.shapes, p.2.id = p.1

/-- Every id stored in an outgoing adjacency list resolves in `shapes`. -/
def OutgoingWF (g : DiagramGraph) : Prop :=
  ∀ p ∈ g.outgoing, ∀ t ∈ p.2, t ∈ mapKeys g.shapes

/-- The invariant carried through the BFS loop: queued ids and recorded level
keys stay within the key set `K` of the shapes map, and every visited id owns
a levels entry. -/
def BfsInv (K : List String) (st : BfsState) : Prop :=
  (∀ e ∈ st.queue, e.id ∈ K) ∧ (∀ k ∈ mapKeys st.levels, k ∈ K) ∧
    (∀ v ∈ st.visited, v ∈ mapKeys st.levels)

/-! ### Concrete fixture graphs

Small graphs used to evaluate the model at the inputs named by the spec's
testable properties (a diamond re-convergence, a two-child fan, a self-loop,
a dangling edge target, and a long/short path pair). Geometry hints are
chosen so every position-hint comparison is strict. -/

/-- A fixture shape: label and kind play no role in the layouts. -/
def sampleShape (id : String) (x y w h : ℚ) : ParsedShape :=
  ⟨id, id, "rectangle", x, y, w, h⟩

/-- The layout options of the spec's scenarios: spacing 50, start (50, 50). -/
def opts50 : LayoutOptions := ⟨50, 50, 50⟩

/-- The diamond graph A→B, A→C, B→D, C→D of the level-monotonicity scenario,
as the extractor would deliver it. -/
def diamondGraph : DiagramGraph :=
  { shapes := [("A", sampleShape "A" 100 0 100 60),
               ("B", sampleShape "B" 0 100 100 60),
               ("C", sampleShape "C" 200 100 100 60),
               ("D", sampleShape "D" 100 200 100 60)]
    edges := [⟨"e1", "A", "B", ""⟩, ⟨"e2", "A", "C", ""⟩,
              ⟨"e3", "B", "D", ""⟩, ⟨"e4", "C", "D", ""⟩]
    outgoing := [("A", ["B", "C"]), ("B", ["D"]), ("C", ["D"]), ("D", [])]
    incoming := [("A", []), ("B", ["A"]), ("C", ["A"]), ("D", ["B", "C"])] }

/-- The diamond's shapes with no connectors at all. -/
def diamondGraphNoEdges : DiagramGraph :=
  { shapes := diamondGraph.shapes
    edges := []
    outgoing := []
    incoming := [] }

/-- A graph with a long and a short path into the same node, then one more
hop: R→X, R→A, X→A, A→B. The only edge into B leaves A. -/
def longPathGraph : DiagramGraph :=
  { shapes := [("R", sampleShape "R" 50 0 100 60),
               ("X", sampleShape "X" 0 100 100 60),
               ("A", sampleShape "A" 100 100 100 60),
               ("B", sampleShape "B" 100 200 100 60)]
    edges := [⟨"e1", "R", "X", ""⟩, ⟨"e2", "R", "A", ""⟩,
              ⟨"e3", "X", "A", ""⟩, ⟨"e4", "A", "B", ""⟩]
    outgoing := [("R", ["X", "A"]), ("X", ["A"]), ("A", ["B"]), ("B", [])]
    incoming := [("R", []), ("X", ["R"]), ("A", ["R", "X"]), ("B", ["A"])] }

/-- The two-child fan A→B, A→C of the cross-axis centering scenario: every
shape 100 wide and 60 high. -/
def fanGraph : DiagramGraph :=
  { shapes := [("A", sampleShape "A" 100 0 100 60),
               ("B", sampleShape "B" 0 100 100 60),
               ("C", sampleShape "C" 200 100 100 60)]
    edges := [⟨"e1", "A", "B", ""⟩, ⟨"e2", "A", "C", ""⟩]
    outgoing := [("A", ["B", "C"]), ("B", []), ("C", [])]
    incoming := [("A", []), ("B", ["A"]), ("C", ["A"])] }

/-- One shape with one self-loop edge. -/
def selfLoopGraph : DiagramGraph :=
  { shapes := [("A", sampleShape "A" 10 20 100 60)]
    edges := [⟨"e1", "A", "A", ""⟩]
    outgoing := [("A", ["A"])]
    incoming := [("A", ["A"])] }

/-- A graph whose only edge points at an id absent from the shapes map —
exactly what the extractor produces for document `⟨shape A⟩ ⟨edge A→T⟩`
(claim C6's counterexample). -/
def danglingGraph : DiagramGraph :=
  { shapes := [("A", sampleShape "A" 0 0 100 60)]
    edges := [⟨"e1", "A", "T", ""⟩]
    outgoing := [("A", ["T"])]
    incoming := [("A", [])] }

/-- The layout entry a result map records for an id (zero entry when the
layout failed or the id is unbound), for stating concrete placements. -/
def posOf (result : Option (List (String × LayoutEntry))) (id : String) :
    LayoutEntry :=
  (mapGet (result.getD []) id).getD ⟨0, 0, none, none⟩

/-- The level the flowchart level assignment records for an id. -/
def levelOf (g : DiagramGraph) (dir : Direction) (id : String) : Nat :=
  (mapGet (flowchartLevels g dir) id).getD 0

/-! ### Association-list lemmas -/

section MapLemmas

variable {κ β : Type} [DecidableEq κ]

theorem mapGet_mem {m : List (κ × β)} {k : κ} {v : β}
    (h : mapGet m k = some v) : (k, v) ∈ m := by
  unfold mapGet at h
  cases hf : m.find? (fun p => decide (p.1 = k)) with
  | none => simp [hf] at h
  | some p =>
    have hp := List.find?_some hf
    have hmem := List.mem_of_find?_eq_some hf
    simp [hf] at h
    have : p.1 = k := by simpa using hp
    cases p with
    | mk a b => cases this; cases h; exact hmem

theorem mapGet_isSome_iff {m : List (κ × β)} {k : κ} :
    (mapGet m k).isSome ↔ k ∈ mapKeys m := by
  induction m with
  | nil => simp [mapGet, mapKeys]
  | cons p rest ih =>
    by_cases hk : p.1 = k
    · simp [mapGet, mapKeys, List.find?, hk]
    · simp only [mapGet, mapKeys, List.find?, hk] at ih ⊢
      simp [hk, Ne.symm hk, ih]

theorem mapHasKey_iff {m : List (κ × β)} {k : κ} :
    mapHasKey m k = true ↔ k ∈ mapKeys m := by
  unfold mapHasKey
  simpa using mapGet_isSome_iff

omit [DecidableEq κ] in
theorem mapKeys_cons (p : κ × β) (l : List (κ × β)) :
    mapKeys (p :: l) = p.1 :: mapKeys l := rfl

theorem mapKeys_mapSet_of_mem {m : List (κ × β)} {k : κ} (v : β)
    (h : k ∈ mapKeys m) : mapKeys (mapSet m k v) = mapKeys m := by
  induction m with
  | nil => simp [mapKeys] at h
  | cons p rest ih =>
    by_cases hk : p.1 = k
    · simp [mapSet, hk, mapKeys]
    · have hmem : k ∈ mapKeys rest := by
        rcases (by simpa [mapKeys_cons] using h) with h' | h'
        · exact absurd h'.symm hk
        · exact h'
      rw [mapSet, if_neg hk, mapKeys_cons, mapKeys_cons, ih hmem]

theorem mapKeys_mapSet_of_not_mem {m : List (κ × β)} {k : κ} (v : β)
    (h : k ∉ mapKeys m) : mapKeys (mapSet m k v) = mapKeys m ++ [k] := by
  induction m with
  | nil => simp [mapSet, mapKeys]
  | cons p rest ih =>
    have hk : p.1 ≠ k := by
      intro hc
      exact h (by simp [mapKeys_cons, hc])
    have hr : k ∉ mapKeys rest := by
      intro hc
      exact h (by rw [mapKeys_cons]; exact List.mem_cons_of_mem _ hc)
    rw [mapSet, if_neg hk, mapKeys_cons, mapKeys_cons, ih hr, List.cons_append]

theorem mem_mapKeys_mapSet {m : List (κ × β)} {k k' : κ} {v : β} :
    k' ∈ mapKeys (mapSet m k v) ↔ k' ∈ mapKeys m ∨ k' = k := by
  by_cases h : k ∈ mapKeys m
  · rw [mapKeys_mapSet_of_mem v h]
    constructor
    · exact Or.inl
    · rintro (hm | rfl)
      · exact hm
      · exact h
  · rw [mapKeys_mapSet_of_not_mem v h]
    simp

theorem nodup_mapKeys_mapSet {m : List (κ × β)} {k : κ} {v : β}
    (h : (mapKeys m).Nodup) : (mapKeys (mapSet m k v)).Nodup := by
  by_cases hk : k ∈ mapKeys m
  · rwa [mapKeys_mapSet_of_mem v hk]
  · rw [mapKeys_mapSet_of_not_mem v hk]
    simpa [List.nodup_append] using ⟨h, hk⟩

theorem foldl_mapSet_keys_mem (l : List (κ × β)) (m : List (κ × β)) (k : κ) :
    k ∈ mapKeys (l.foldl (fun acc p => mapSet acc p.1 p.2) m) ↔
      k ∈ mapKeys m ∨ k ∈ l.map (·.1) := by
  induction l generalizing m with
  | nil => simp
  | cons p rest ih =>
    rw [List.foldl_cons, ih]
    rw [mem_mapKeys_mapSet]
    simp only [List.map_cons, List.mem_cons]
    tauto

theorem foldl_mapSet_keys_nodup (l : List (κ × β)) (m : List (κ × β))
    (h : (mapKeys m).Nodup) :
    (mapKeys (l.foldl (fun acc p => mapSet acc p.1 p.2) m)).Nodup := by
  induction l generalizing m with
  | nil => simpa
  | cons p rest ih => exact ih _ (nodup_mapKeys_mapSet h)

theorem buildMap_keys_mem {l : List (κ × β)} {k : κ} :
    k ∈ mapKeys (buildMap l) ↔ k ∈ l.map (·.1) := by
  unfold buildMap
  rw [foldl_mapSet_keys_mem]
  simp [mapKeys]

theorem buildMap_keys_nodup (l : List (κ × β)) :
    (mapKeys (buildMap l)).Nodup := by
  unfold buildMap
  exact foldl_mapSet_keys_nodup l [] (by simp [mapKeys])

theorem mapGet_eq_some_iff_of_nodup {m : List (κ × β)} {k : κ} {v : β}
    (h : (mapKeys m).Nodup) : mapGet m k = some v ↔ (k, v) ∈ m := by
  constructor
  · exact mapGet_mem
  · intro hmem
    induction m with
    | nil => cases hmem
    | cons p rest ih =>
      rcases List.mem_cons.1 hmem with rfl | hrest
      · simp [mapGet, List.find?]
      · have hk : p.1 ≠ k := by
          intro hc
          have : k ∈ mapKeys rest := by
            simpa [mapKeys] using List.mem_map_of_mem (·.1) hrest
          have := (by simpa [mapKeys, hc] using h : ¬k ∈ mapKeys rest ∧ _).1
          exact this ‹k ∈ mapKeys rest›
        have hnr : (mapKeys rest).Nodup := by
          simpa [mapKeys] using h.of_cons
        simpa [mapGet, List.find?, hk] using
          (by simpa [mapGet] using ih hnr hrest)

end MapLemmas

/-! ### Invariants of the BFS level assignment -/

theorem flowchartRoots_subset {g : DiagramGraph} {dir : Direction}
    (hid : ∀ p ∈ g.shapes, p.2.id = p.1) :
    ∀ r ∈ flowchartRoots g dir, r ∈ mapKeys g.shapes := by
  intro r hr
  unfold flowchartRoots at hr
  rw [List.mem_mergeSort] at hr
  split at hr
  · cases hlist : (g.shapes.map (·.2)).mergeSort (shapeHintLe dir) with
    | nil => rw [hlist] at hr; simp at hr
    | cons s tail =>
      rw [hlist] at hr
      have hs : s ∈ (g.shapes.map (·.2)).mergeSort (shapeHintLe dir) := by
        rw [hlist]; exact List.mem_cons_self _ _
      rw [List.mem_mergeSort, List.mem_map] at hs
      obtain ⟨p, hp, rfl⟩ := hs
      rcases List.mem_singleton.1 hr with rfl
      rw [hid p hp]
      exact List.mem_map_of_mem _ hp
  · exact (List.mem_filter.1 hr).1

theorem bfsStep_inv {shapes : List (String × ParsedShape)}
    {outgoing : List (String × List String)} {dir : Direction} {K : List String}
    (hout : ∀ p ∈ outgoing, ∀ t ∈ p.2, t ∈ K)
    {st : BfsState} {e : QueueEntry} {rest : List QueueEntry}
    (hq : st.queue = e :: rest) (h : BfsInv K st) :
    BfsInv K (bfsStep shapes outgoing dir st e rest) := by
  obtain ⟨hqueue, hlev, hvis⟩ := h
  have hrest : ∀ x ∈ rest, x.id ∈ K := by
    intro x hx
    exact hqueue x (by rw [hq]; exact List.mem_cons_of_mem _ hx)
  have heK : e.id ∈ K := hqueue e (by rw [hq]; exact List.mem_cons_self _ _)
  unfold bfsStep
  by_cases hvisited : e.id ∈ st.visited
  · simp only [if_pos hvisited]
    refine ⟨hrest, ?_, ?_⟩
    · intro k hk
      split at hk
      · rcases mem_mapKeys_mapSet.1 hk with hk' | rfl
        · exact hlev k hk'
        · exact heK
      · exact hlev k hk
    · intro v hv
      split
      · exact mem_mapKeys_mapSet.2 (Or.inl (hvis v hv))
      · exact hvis v hv
  · simp only [if_neg hvisited]
    refine ⟨?_, ?_, ?_⟩
    · intro x hx
      rcases List.mem_append.1 hx with hx' | hx'
      · exact hrest x hx'
      · rw [List.mem_map] at hx'
        obtain ⟨p, hp, rfl⟩ := hx'
        have hchild : p.2 ∈ (mapGet outgoing e.id).getD [] := by
          have : p.2 ∈ List.map Prod.snd (((mapGet outgoing e.id).getD []).mergeSort
              (childSortLe shapes dir)).enum := List.mem_map_of_mem _ hp
          rw [List.enum_map_snd, List.mem_mergeSort] at this
          exact this
        cases hget : mapGet outgoing e.id with
        | none => rw [hget] at hchild; simp at hchild
        | some l =>
          rw [hget] at hchild
          exact hout _ (mapGet_mem hget) _ hchild
    · intro k hk
      rcases mem_mapKeys_mapSet.1 hk with hk' | rfl
      · exact hlev k hk'
      · exact heK
    · intro v hv
      rcases List.mem_cons.1 hv with rfl | hv'
      · exact mem_mapKeys_mapSet.2 (Or.inr rfl)
      · exact mem_mapKeys_mapSet.2 (Or.inl (hvis v hv'))

theorem bfsRun_inv {shapes : List (String × ParsedShape)}
    {outgoing : List (String × List String)} {dir : Direction} {K : List String}
    (hout : ∀ p ∈ outgoing, ∀ t ∈ p.2, t ∈ K) :
    ∀ (fuel : Nat) (st : BfsState), BfsInv K st →
      BfsInv K (bfsRun shapes outgoing dir fuel st) := by
  intro fuel
  induction fuel with
  | zero => intro st h; exact h
  | succ fuel ih =>
    intro st h
    rw [bfsRun]
    cases hq : st.queue with
    | nil => exact h
    | cons e rest => exact ih _ (bfsStep_inv hout hq h)

/-! ### The disconnected-shapes pass -/

theorem discFold_visited (ids : List String) :
    ∀ st : BfsState, (ids.foldl discStep st).visited = st.visited := by
  induction ids with
  | nil => intro st; rfl
  | cons id rest ih =>
    intro st
    rw [List.foldl_cons, ih]
    unfold discStep
    split <;> rfl

theorem discFold_levels_mono (ids : List String) :
    ∀ (st : BfsState) (k : String), k ∈ mapKeys st.levels →
      k ∈ mapKeys (ids.foldl discStep st).levels := by
  induction ids with
  | nil => intro st k hk; exact hk
  | cons id rest ih =>
    intro st k hk
    rw [List.foldl_cons]
    refine ih _ k ?_
    unfold discStep
    split
    · exact hk
    · exact mem_mapKeys_mapSet.2 (Or.inl hk)

theorem discFold_levels_subset (ids : List String) :
    ∀ (st : BfsState) (K : List String), (∀ i ∈ ids, i ∈ K) →
      (∀ k ∈ mapKeys st.levels, k ∈ K) →
      ∀ k ∈ mapKeys (ids.foldl discStep st).levels, k ∈ K := by
  induction ids with
  | nil => intro st K _ hst k hk; exact hst k hk
  | cons id rest ih =>
    intro st K hids hst k hk
    rw [List.foldl_cons] at hk
    refine ih _ K (fun i hi => hids i (List.mem_cons_of_mem _ hi)) ?_ k hk
    intro k' hk'
    unfold discStep at hk'
    split at hk'
    · exact hst k' hk'
    · rcases mem_mapKeys_mapSet.1 hk' with h' | rfl
      · exact hst k' h'
      · exact hids k' (List.mem_cons_self _ _)

theorem discFold_covers (ids : List String) :
    ∀ st : BfsState, (∀ v ∈ st.visited, v ∈ mapKeys st.levels) →
      ∀ k ∈ ids, k ∈ mapKeys (ids.foldl discStep st).levels := by
  induction ids with
  | nil => intro st _ k hk; cases hk
  | cons id rest ih =>
    intro st hvis k hk
    have hstep_vis : (discStep st id).visited = st.visited := by
      unfold discStep; split <;> rfl
    have hstep_mono : ∀ k' ∈ mapKeys st.levels, k' ∈ mapKeys (discStep st id).levels := by
      intro k' hk'
      unfold discStep
      split
      · exact hk'
      · exact mem_mapKeys_mapSet.2 (Or.inl hk')
    have hvis' : ∀ v ∈ (discStep st id).visited, v ∈ mapKeys (discStep st id).levels := by
      intro v hv
      rw [hstep_vis] at hv
      exact hstep_mono v (hvis v hv)
    rw [List.foldl_cons]
    rcases List.mem_cons.1 hk with rfl | hkrest
    · refine discFold_levels_mono rest _ k ?_
      unfold discStep
      split
      · next hin => exact hvis k hin
      · exact mem_mapKeys_mapSet.2 (Or.inr rfl)
    · exact ih _ hvis' k hkrest

/-- Key coverage of the complete level assignment: for a well-keyed graph
with well-formed outgoing lists, the final levels map records exactly the
shape ids. -/
theorem leveledState_levels_keys {g : DiagramGraph} {dir : Direction}
    (hid : ∀ p ∈ g.shapes, p.2.id = p.1) (hout : OutgoingWF g) :
    ∀ k, k ∈ mapKeys (leveledState g dir).levels ↔ k ∈ mapKeys g.shapes := by
  have hinit : BfsInv (mapKeys g.shapes) (bfsInitState g dir) := by
    refine ⟨?_, ?_, ?_⟩
    · intro e he
      unfold bfsInitState at he
      rw [List.mem_map] at he
      obtain ⟨p, hp, rfl⟩ := he
      have : p.2 ∈ flowchartRoots g dir := by
        have := List.mem_map_of_mem Prod.snd hp
        rwa [List.enum_map_snd] at this
      exact flowchartRoots_subset hid _ this
    · intro k hk; cases hk
    · intro v hv; cases hv
  have hbfs : BfsInv (mapKeys g.shapes) (bfsFinalState g dir) :=
    bfsRun_inv hout _ _ hinit
  intro k
  constructor
  · intro hk
    exact discFold_levels_subset _ _ _ (fun i hi => hi) hbfs.2.1 k hk
  · intro hk
    exact discFold_covers _ _ hbfs.2.2 k hk

/-! ### Grouping and placement -/

section MoreMapLemmas

variable {κ β γ : Type} [DecidableEq κ]

theorem mapGet_mapSet_self (m : List (κ × β)) (k : κ) (v : β) :
    mapGet (mapSet m k v) k = some v := by
  induction m with
  | nil => simp [mapSet, mapGet, List.find?]
  | cons p rest ih =>
    by_cases hk : p.1 = k
    · simp [mapSet, hk, mapGet, List.find?]
    · simp only [mapSet, if_neg hk]
      simpa [mapGet, List.find?, hk] using ih

theorem mapGet_mapSet_ne (m : List (κ × β)) {k k' : κ} (v : β)
    (h : k' ≠ k) : mapGet (mapSet m k v) k' = mapGet m k' := by
  induction m with
  | nil => simp [mapSet, mapGet, List.find?, Ne.symm h]
  | cons p rest ih =>
    by_cases hk : p.1 = k
    · subst hk
      simp [mapSet, mapGet, List.find?, Ne.symm h]
    · simp only [mapSet, if_neg hk]
      by_cases hk' : p.1 = k'
      · simp [mapGet, List.find?, hk']
      · simpa [mapGet, List.find?, hk'] using ih

theorem mapGet_map_snd (f : β → γ) (m : List (κ × β)) (k : κ) :
    mapGet (m.map (fun p => (p.1, f p.2))) k = (mapGet m k).map f := by
  induction m with
  | nil => simp [mapGet]
  | cons p rest ih =>
    by_cases hk : p.1 = k
    · simp [mapGet, List.find?, hk]
    · simpa [mapGet, List.find?, hk] using ih

theorem foldl_append_eq_flatMap {α : Type} (f : α → List β) :
    ∀ (L : List α) (init : List β),
      L.foldl (fun acc a => acc ++ f a) init = init ++ L.flatMap f := by
  intro L
  induction L with
  | nil => intro init; simp
  | cons a rest ih =>
    intro init
    rw [List.foldl_cons, ih, List.flatMap_cons, List.append_assoc]

end MoreMapLemmas

/-- Membership in the groups built by Step 3, characterized through the fold:
a shape sits in the group of level `lv` exactly when some processed levels
entry put it there. -/
theorem groupsFold_mem_iff (shapes : List (String × ParsedShape)) :
    ∀ (l : List (String × Nat)) (acc : List (Nat × List ParsedShape))
      (lv : Nat) (s : ParsedShape),
      s ∈ (mapGet (l.foldl (groupStep shapes) acc) lv).getD [] ↔
        s ∈ (mapGet acc lv).getD [] ∨
          ∃ q ∈ l, lv = q.2 ∧ s = (mapGet shapes q.1).getD defaultShape := by
  intro l
  induction l with
  | nil => intro acc lv s; simp
  | cons q rest ih =>
    intro acc lv s
    rw [List.foldl_cons, ih]
    by_cases hlv : lv = q.2
    · subst hlv
      rw [show groupStep shapes acc q =
            mapSet acc q.2 ((mapGet acc q.2).getD [] ++
              [(mapGet shapes q.1).getD defaultShape]) from rfl]
      rw [mapGet_mapSet_self]
      simp only [Option.getD_some, List.mem_append, List.mem_singleton]
      constructor
      · rintro ((h | h) | h)
        · exact Or.inl h
        · exact Or.inr ⟨q, List.mem_cons_self _ _, rfl, h⟩
        · obtain ⟨q', hq', hlv', hs⟩ := h
          exact Or.inr ⟨q', List.mem_cons_of_mem _ hq', hlv', hs⟩
      · rintro (h | ⟨q', hq', hlv', hs⟩)
        · exact Or.inl (Or.inl h)
        · rcases List.mem_cons.1 hq' with rfl | hq''
          · exact Or.inl (Or.inr hs)
          · exact Or.inr ⟨q', hq'', hlv', hs⟩
    · rw [show groupStep shapes acc q =
            mapSet acc q.2 ((mapGet acc q.2).getD [] ++
              [(mapGet shapes q.1).getD defaultShape]) from rfl]
      rw [mapGet_mapSet_ne _ _ hlv]
      constructor
      · rintro (h | ⟨q', hq', hlv', hs⟩)
        · exact Or.inl h
        · exact Or.inr ⟨q', List.mem_cons_of_mem _ hq', hlv', hs⟩
      · rintro (h | ⟨q', hq', hlv', hs⟩)
        · exact Or.inl h
        · rcases List.mem_cons.1 hq' with rfl | hq''
          · exact absurd hlv' hlv
          · exact Or.inr ⟨q', hq'', hlv', hs⟩

/-- Keys of the groups built by Step 3: exactly the levels occurring in the
processed entries. -/
theorem groupsFold_keys_mem (shapes : List (String × ParsedShape)) :
    ∀ (l : List (String × Nat)) (acc : List (Nat × List ParsedShape)) (lv : Nat),
      lv ∈ mapKeys (l.foldl (groupStep shapes) acc) ↔
        lv ∈ mapKeys acc ∨ lv ∈ l.map (·.2) := by
  intro l
  induction l with
  | nil => intro acc lv; simp
  | cons q rest ih =>
    intro acc lv
    rw [List.foldl_cons, ih]
    rw [show groupStep shapes acc q =
          mapSet acc q.2 ((mapGet acc q.2).getD [] ++
            [(mapGet shapes q.1).getD defaultShape]) from rfl]
    rw [mem_mapKeys_mapSet]
    simp only [List.map_cons, List.mem_cons]
    tauto

/-- The first component of a placed entry is the shape's id, on either
axis. -/
theorem placeGroupEntry_fst (options : LayoutOptions) (dir : Direction)
    (maxWidth maxHeight effectiveSpacing effectiveVerticalSpacing : ℚ)
    (level groupLength : Nat) (groupWidth : ℚ) (p : Nat × ParsedShape) :
    (placeGroupEntry options dir maxWidth maxHeight effectiveSpacing
      effectiveVerticalSpacing level groupLength groupWidth p).1 = p.2.id := by
  cases dir <;> rfl

/-- The ids emitted for one group are the group's shape ids, in order. -/
theorem placeGroup_ids (options : LayoutOptions) (dir : Direction)
    (maxWidth maxHeight effectiveSpacing effectiveVerticalSpacing : ℚ)
    (level : Nat) (group : List ParsedShape) :
    (placeGroup options dir maxWidth maxHeight effectiveSpacing
      effectiveVerticalSpacing level group).map (·.1) = group.map (·.id) := by
  unfold placeGroup
  rw [List.map_map]
  have : ((fun x : String × LayoutEntry => x.1) ∘
      placeGroupEntry options dir maxWidth maxHeight effectiveSpacing
        effectiveVerticalSpacing level group.length
        ((group.length : ℚ) * (maxWidth + effectiveSpacing) - effectiveSpacing)) =
      fun p : Nat × ParsedShape => p.2.id := by
    funext p
    exact placeGroupEntry_fst _ _ _ _ _ _ _ _ _ p
  rw [this]
  have h2 : (fun p : Nat × ParsedShape => p.2.id) =
      (fun s : ParsedShape => s.id) ∘ Prod.snd := rfl
  rw [h2, ← List.map_map, List.enum_map_snd]

/-- The ids emitted by Step 5, in order: the sorted levels, each contributing
its group's shape ids. -/
theorem placeLevelGroups_ids (g : DiagramGraph) (options : LayoutOptions)
    (dir : Direction) (groups : List (Nat × List ParsedShape)) :
    (placeLevelGroups g options dir groups).map (·.1) =
      ((groups.map (·.1)).mergeSort (fun a b => decide (a ≤ b))).flatMap
        (fun lv => ((mapGet groups lv).getD []).map (·.id)) := by
  unfold placeLevelGroups
  rw [foldl_append_eq_flatMap, List.nil_append, List.map_flatMap]
  congr 1
  funext lv
  exact placeGroup_ids _ _ _ _ _ _ _ _

/-- Step 6 rewrites values in place, never keys. -/
theorem normalizePositions_keys (sx sy : ℚ)
    (ps : List (String × LayoutEntry)) :
    mapKeys (normalizePositions sx sy ps) = mapKeys ps := by
  unfold normalizePositions
  cases ps with
  | nil => rfl
  | cons p rest =>
    simp only [List.map_cons]
    split
    · simp [mapKeys, List.map_map, Function.comp_def]
    · rfl

/-- When every shape is keyed by its own id, the list of shape-value ids is
the key list. -/
theorem shape_ids_eq_keys {m : List (String × ParsedShape)}
    (hid : ∀ p ∈ m, p.2.id = p.1) :
    (m.map (·.2)).map (·.id) = mapKeys m := by
  rw [List.map_map]
  exact List.map_congr_left hid

/-- The ids emitted by the grid placement are the sorted shapes' ids. -/
theorem gridEntries_ids (options : LayoutOptions) (columns : Nat)
    (maxWidth maxHeight : ℚ) (shapes : List ParsedShape) :
    (shapes.enum.map (gridEntry options columns maxWidth maxHeight)).map (·.1) =
      shapes.map (·.id) := by
  rw [List.map_map]
  have h1 : ((fun x : String × LayoutEntry => x.1) ∘
      gridEntry options columns maxWidth maxHeight) =
      fun p : Nat × ParsedShape => p.2.id := rfl
  have h2 : (fun p : Nat × ParsedShape => p.2.id) =
      (fun s : ParsedShape => s.id) ∘ Prod.snd := rfl
  rw [h1, h2, ← List.map_map, List.enum_map_snd]

/-- Membership in a mapped merge sort is membership in the mapped list. -/
theorem mem_map_mergeSort {α β : Type} (f : α → β) (le : α → α → Bool)
    (l : List α) (b : β) : b ∈ (l.mergeSort le).map f ↔ b ∈ l.map f := by
  constructor
  · intro h
    rw [List.mem_map] at h
    obtain ⟨a, ha, rfl⟩ := h
    exact List.mem_map_of_mem f (List.mem_mergeSort.1 ha)
  · intro h
    rw [List.mem_map] at h
    obtain ⟨a, ha, rfl⟩ := h
    exact List.mem_map_of_mem f (List.mem_mergeSort.2 ha)

/-- Key-set coverage of `gridLayout`: for a well-keyed graph the emitted map
binds exactly the shape ids, each once. -/
theorem gridLayout_coverage {g : DiagramGraph} {options : LayoutOptions}
    (hid : ∀ p ∈ g.shapes, p.2.id = p.1) :
    (mapKeys (gridLayout g options)).Nodup ∧
      ∀ k, k ∈ mapKeys (gridLayout g options) ↔ k ∈ mapKeys g.shapes := by
  refine ⟨buildMap_keys_nodup _, fun k => ?_⟩
  rw [show gridLayout g options = buildMap
        (((g.shapes.map (·.2)).mergeSort gridSortLe).enum.map
          (gridEntry options
            (ceilSqrt ((g.shapes.map (·.2)).mergeSort gridSortLe).length)
            (((g.shapes.map (·.2)).mergeSort gridSortLe).foldl
              (fun acc s => max acc s.width) 0)
            (((g.shapes.map (·.2)).mergeSort gridSortLe).foldl
              (fun acc s => max acc s.height) 0)))
      from rfl]
  rw [buildMap_keys_mem, gridEntries_ids, mem_map_mergeSort, shape_ids_eq_keys hid]

/-- Key-set coverage of `flowchartLayout`: for a well-keyed graph whose
outgoing adjacency lists resolve, the layout succeeds and binds exactly the
shape ids, each once. -/
theorem flowchartLayout_coverage {g : DiagramGraph} {options : LayoutOptions}
    {dir : Direction} (hWF : ShapesWF g) (hout : OutgoingWF g) :
    ∃ m, flowchartLayout g options dir = some m ∧ (mapKeys m).Nodup ∧
      ∀ k, k ∈ mapKeys m ↔ k ∈ mapKeys g.shapes := by
  obtain ⟨hnodup, hid⟩ := hWF
  by_cases hempty : g.shapes.isEmpty = true
  · refine ⟨[], ?_, List.nodup_nil, fun k => ?_⟩
    · unfold flowchartLayout
      rw [if_pos hempty]
    · rw [List.isEmpty_iff] at hempty
      simp [mapKeys, hempty]
  · have hkeys := @leveledState_levels_keys g dir hid hout
    have hcheck : ((leveledState g dir).levels.all
        fun p => mapHasKey g.shapes p.1) = true := by
      rw [List.all_eq_true]
      intro p hp
      rw [mapHasKey_iff]
      exact (hkeys p.1).1 (List.mem_map_of_mem _ hp)
    refine ⟨normalizePositions options.startX options.startY
      (buildMap (placeLevelGroups g options dir
        ((buildLevelGroups g.shapes (leveledState g dir).levels).map
          (fun p => (p.1, p.2.mergeSort
            (groupSortLe (leveledState g dir).swimLanes dir)))))), ?_, ?_, ?_⟩
    · simp only [flowchartLayout]
      rw [if_neg hempty, if_pos hcheck]
    · rw [normalizePositions_keys]
      exact buildMap_keys_nodup _
    · intro k
      rw [normalizePositions_keys, buildMap_keys_mem, placeLevelGroups_ids]
      have hmapfst : ((buildLevelGroups g.shapes (leveledState g dir).levels).map
            (fun p => (p.1, p.2.mergeSort
              (groupSortLe (leveledState g dir).swimLanes dir)))).map (·.1) =
          (buildLevelGroups g.shapes (leveledState g dir).levels).map (·.1) := by
        rw [List.map_map]
        rfl
      rw [hmapfst]
      constructor
      · intro hk
        rw [List.mem_flatMap] at hk
        obtain ⟨lv, hlvmem, hk⟩ := hk
        rw [List.mem_map] at hk
        obtain ⟨s, hs, rfl⟩ := hk
        rw [mapGet_map_snd
          (fun l : List ParsedShape =>
            l.mergeSort (groupSortLe (leveledState g dir).swimLanes dir))
          (buildLevelGroups g.shapes (leveledState g dir).levels) lv] at hs
        cases hget : mapGet (buildLevelGroups g.shapes (leveledState g dir).levels) lv with
        | none => rw [hget] at hs; simp at hs
        | some gl =>
          rw [hget] at hs
          have hs' : s ∈ gl.mergeSort
              (groupSortLe (leveledState g dir).swimLanes dir) := hs
          rw [List.mem_mergeSort] at hs'
          have hmem : s ∈ (mapGet ((leveledState g dir).levels.foldl
              (groupStep g.shapes) []) lv).getD [] := by
            rw [show (leveledState g dir).levels.foldl (groupStep g.shapes) [] =
                buildLevelGroups g.shapes (leveledState g dir).levels from rfl, hget]
            exact hs'
          rcases (groupsFold_mem_iff g.shapes _ [] lv s).1 hmem with h | ⟨q, hq, _, hs_eq⟩
          · simp [mapGet] at h
          · have hq1 : q.1 ∈ mapKeys g.shapes :=
              (hkeys q.1).1 (List.mem_map_of_mem _ hq)
            obtain ⟨s', heq⟩ := Option.isSome_iff_exists.1 (mapGet_isSome_iff.2 hq1)
            have hsid : s.id = q.1 := by
              rw [hs_eq, heq, Option.getD_some]
              exact hid _ (mapGet_mem heq)
            rw [hsid]
            exact hq1
      · intro hk
        have hkl : k ∈ mapKeys (leveledState g dir).levels := (hkeys k).2 hk
        rw [mapKeys, List.mem_map] at hkl
        obtain ⟨q, hq, hq1⟩ := hkl
        have hmem : (mapGet g.shapes q.1).getD defaultShape ∈
            (mapGet ((leveledState g dir).levels.foldl (groupStep g.shapes) [])
              q.2).getD [] :=
          (groupsFold_mem_iff g.shapes _ [] q.2 _).2 (Or.inr ⟨q, hq, rfl, rfl⟩)
        rw [show (leveledState g dir).levels.foldl (groupStep g.shapes) [] =
            buildLevelGroups g.shapes (leveledState g dir).levels from rfl] at hmem
        cases hget : mapGet (buildLevelGroups g.shapes (leveledState g dir).levels) q.2 with
        | none => rw [hget] at hmem; simp at hmem
        | some gl =>
          rw [hget] at hmem
          simp only [Option.getD_some] at hmem
          obtain ⟨s', heq⟩ := Option.isSome_iff_exists.1
            (mapGet_isSome_iff.2 (hq1 ▸ hk))
          have hsid : ((mapGet g.shapes q.1).getD defaultShape).id = k := by
            rw [heq, Option.getD_some, hid _ (mapGet_mem heq), hq1]
          rw [List.mem_flatMap]
          refine ⟨q.2, ?_, ?_⟩
          · rw [List.mem_mergeSort]
            exact mapGet_isSome_iff.1 (by rw [hget]; rfl)
          · rw [List.mem_map]
            refine ⟨(mapGet g.shapes q.1).getD defaultShape, ?_, hsid⟩
            rw [mapGet_map_snd
              (fun l : List ParsedShape =>
                l.mergeSort (groupSortLe (leveledState g dir).swimLanes dir))
              (buildLevelGroups g.shapes (leveledState g dir).levels) q.2, hget]
            show (mapGet g.shapes q.1).getD defaultShape ∈ gl.mergeSort
              (groupSortLe (leveledState g dir).swimLanes dir)
            rw [List.mem_mergeSort]
            exact hmem

/-! ### Extractor adjacency-key facts -/

theorem mapKeys_mapSet_congr {κ β γ : Type} [DecidableEq κ]
    {m1 : List (κ × β)} {m2 : List (κ × γ)} (k : κ) (v1 : β) (v2 : γ)
    (h : mapKeys m1 = mapKeys m2) :
    mapKeys (mapSet m1 k v1) = mapKeys (mapSet m2 k v2) := by
  by_cases hk : k ∈ mapKeys m1
  · rw [mapKeys_mapSet_of_mem _ hk, mapKeys_mapSet_of_mem _ (h ▸ hk), h]
  · rw [mapKeys_mapSet_of_not_mem _ hk,
      mapKeys_mapSet_of_not_mem _ (by rw [← h]; exact hk), h]

/-- The edge loop of `parseDiagram` never touches the shapes map, never adds
or removes adjacency keys, and appends every edge record in order. -/
theorem edgeFold_spec :
    ∀ (recs : List EdgeRecord) (st : DiagramGraph),
      (recs.foldl addEdgeRecord st).shapes = st.shapes ∧
      mapKeys (recs.foldl addEdgeRecord st).outgoing = mapKeys st.outgoing ∧
      mapKeys (recs.foldl addEdgeRecord st).incoming = mapKeys st.incoming ∧
      (recs.foldl addEdgeRecord st).edges =
        st.edges ++ recs.map (fun r => ⟨r.id, r.source, r.target, r.value⟩) := by
  intro recs
  induction recs with
  | nil => intro st; simp
  | cons r rest ih =>
    intro st
    rw [List.foldl_cons]
    obtain ⟨hsh, hout, hin, hedges⟩ := ih (addEdgeRecord st r)
    have hout1 : mapKeys (addEdgeRecord st r).outgoing = mapKeys st.outgoing := by
      unfold addEdgeRecord
      dsimp only
      split
      · next h => exact mapKeys_mapSet_of_mem _ (mapHasKey_iff.1 h)
      · rfl
    have hin1 : mapKeys (addEdgeRecord st r).incoming = mapKeys st.incoming := by
      unfold addEdgeRecord
      dsimp only
      split
      · next h => exact mapKeys_mapSet_of_mem _ (mapHasKey_iff.1 h)
      · rfl
    refine ⟨hsh.trans rfl, hout.trans hout1, hin.trans hin1, ?_⟩
    rw [hedges]
    show st.edges ++ [(⟨r.id, r.source, r.target, r.value⟩ : ParsedEdge)] ++ _ = _
    rw [List.append_assoc, List.map_cons, List.singleton_append]

/-- The shape loop of `parseDiagram` keeps the three maps keyed identically
and leaves the edge list alone. -/
theorem shapeFold_spec :
    ∀ (recs : List ShapeRecord) (st : DiagramGraph),
      mapKeys st.outgoing = mapKeys st.shapes →
      mapKeys st.incoming = mapKeys st.shapes →
      mapKeys (recs.foldl addShapeRecord st).outgoing =
          mapKeys (recs.foldl addShapeRecord st).shapes ∧
        mapKeys (recs.foldl addShapeRecord st).incoming =
          mapKeys (recs.foldl addShapeRecord st).shapes ∧
        (recs.foldl addShapeRecord st).edges = st.edges := by
  intro recs
  induction recs with
  | nil => intro st h1 h2; exact ⟨h1, h2, rfl⟩
  | cons r rest ih =>
    intro st h1 h2
    rw [List.foldl_cons]
    exact ih (addShapeRecord st r)
      (mapKeys_mapSet_congr _ _ _ h1) (mapKeys_mapSet_congr _ _ _ h2)

/-! ### Text sizing on the empty string -/

/-- The line step on the empty line: zero estimated width, so the wrap branch
fires only for wrap widths below the horizontal padding, contributing zero
wrapped lines there and one line otherwise. -/
theorem textLineStep_empty (mw : ℚ) (st : ℚ × ℤ) :
    textLineStep mw st "" =
      if mw - HORIZONTAL_PADDING < 0 then
        (max st.1 (mw - HORIZONTAL_PADDING), st.2)
      else (max st.1 0, st.2 + 1) := by
  have hl : (("".length : ℕ) : ℚ) * CHAR_WIDTH = 0 := by
    rw [show "".length = 0 from rfl]
    norm_num
  simp only [textLineStep, hl]
  rcases lt_or_ge (mw - HORIZONTAL_PADDING) 0 with h | h
  · rw [if_pos h, if_pos h, zero_div, Int.ceil_zero, add_zero]
  · rw [if_neg (not_lt.2 h), if_neg (not_lt.2 h)]

/-! ### Claim theorems -/

/-- C1 (counterexample): the claimed final-level monotonicity
`level(v) ≥ level(u) + 1` for an edge whose head was first reached through
its tail fails on the code: in `longPathGraph` the only edge into B leaves A
(so B can only have been first visited via A), B is visited, and yet the
final levels are `level(A) = 2` and `level(B) = 2`, so
`level(B) ≥ level(A) + 1` is false — the revisit rule later raised A's level
without propagating to B. -/
theorem C1_counterexample :
    longPathGraph.edges.filter (fun e => e.target == "B") =
        [⟨"e4", "A", "B", ""⟩] ∧
      "B" ∈ (bfsFinalState longPathGraph .vertical).visited ∧
      levelOf longPathGraph .vertical "A" = 2 ∧
      levelOf longPathGraph .vertical "B" = 2 ∧
      ¬(levelOf longPathGraph .vertical "B" ≥
          levelOf longPathGraph .vertical "A" + 1) := by
  with_unfolding_all decide

/-- C1 (amended): the level recorded when a node is first visited is one more
than the level its enqueuing parent carried at enqueue time, but later raises
of the parent's level are not propagated, so the final inequality can fail
(see the counterexample); the diamond part of the claim holds: on
A→B, A→C, B→D, C→D the final level of D is 2, and D is placed strictly
further along the main axis than B and C. -/
theorem C1_diamond_level_and_placement :
    levelOf diamondGraph .vertical "D" = 2 ∧
      (posOf (flowchartLayout diamondGraph opts50 .vertical) "D").y >
        (posOf (flowchartLayout diamondGraph opts50 .vertical) "B").y ∧
      (posOf (flowchartLayout diamondGraph opts50 .vertical) "D").y >
        (posOf (flowchartLayout diamondGraph opts50 .vertical) "C").y := by
  with_unfolding_all decide

/-- C2 (counterexample): coverage does not hold for every input graph: on
`danglingGraph` — producible by the extractor (see C6) — `flowchartLayout`
crashes (returns no position map at all), so its key set cannot equal the
shape-id set `{A}`. -/
theorem C2_counterexample :
    flowchartLayout danglingGraph opts50 .vertical = none := by
  with_unfolding_all decide

/-- C2 (amended): for every graph keyed by shape ids, `gridLayout` returns a
map binding exactly the shape ids, each exactly once; `flowchartLayout` does
the same provided every id in the outgoing adjacency lists resolves to a
present shape — without that proviso it can crash (see the
counterexample). -/
theorem C2_coverage :
    ∀ (g : DiagramGraph) (options : LayoutOptions) (dir : Direction),
      ShapesWF g →
      ((mapKeys (gridLayout g options)).Nodup ∧
        ∀ k, k ∈ mapKeys (gridLayout g options) ↔ k ∈ mapKeys g.shapes) ∧
      (OutgoingWF g →
        ∃ m, flowchartLayout g options dir = some m ∧
          (mapKeys m).Nodup ∧ ∀ k, k ∈ mapKeys m ↔ k ∈ mapKeys g.shapes) := by
  intro g options dir hWF
  exact ⟨gridLayout_coverage hWF.2, fun hout => flowchartLayout_coverage hWF hout⟩

/-- C2 (witness): the coverage theorem applied to the diamond fixture. -/
theorem C2_coverage_witness :
    ShapesWF diamondGraph ∧ OutgoingWF diamondGraph ∧
      ∃ m, flowchartLayout diamondGraph opts50 .vertical = some m ∧
        (mapKeys m).Nodup ∧
        ∀ k, k ∈ mapKeys m ↔ k ∈ mapKeys diamondGraph.shapes :=
  ⟨by unfold ShapesWF; with_unfolding_all decide,
    by unfold OutgoingWF; with_unfolding_all decide,
    (C2_coverage diamondGraph opts50 .vertical
      (by unfold ShapesWF; with_unfolding_all decide)).2
      (by unfold OutgoingWF; with_unfolding_all decide)⟩

/-- C3: the named revision's `gridLayout` emits bare `{x, y}` entries — on
the diamond fixture every returned entry carries no width and no height,
while the spec (matching the sibling revision and the position applicator's
documentation) requires width/height forced to the column/row maxima. -/
theorem C3_grid_emits_positions_only :
    gridLayout diamondGraph opts50 =
      [("A", ⟨50, 50, none, none⟩), ("B", ⟨200, 50, none, none⟩),
       ("C", ⟨50, 160, none, none⟩), ("D", ⟨200, 160, none, none⟩)] := by
  with_unfolding_all decide

/-- C4 (counterexample): on the fan A→B, A→C with spacing 50 and start
(50, 50), the returned positions do not place A at x = 50 nor B, C
symmetrically around x = 50: the final normalization shifts every x by +75,
leaving A at x = 125 with B, C at 50 and 200 (midpoint 125). -/
theorem C4_counterexample :
    (posOf (flowchartLayout fanGraph opts50 .vertical) "A").x = 125 ∧
      (posOf (flowchartLayout fanGraph opts50 .vertical) "A").x ≠ 50 ∧
      (posOf (flowchartLayout fanGraph opts50 .vertical) "B").x +
          (posOf (flowchartLayout fanGraph opts50 .vertical) "C").x ≠
        2 * 50 := by
  with_unfolding_all decide

/-- C4 (amended): rows are centered on a common cross axis, but that axis is
`startX` only before Step 6: normalization shifts all x by the deficit of the
leftmost shape, so the fan comes back as A at (125, 50) and B, C at
(50, 160) and (200, 160) — B and C symmetric around A's x, both at
`y = startY + heightOf(A) + spacing` as claimed. -/
theorem C4_fan_placement :
    flowchartLayout fanGraph opts50 .vertical =
        some [("A", ⟨125, 50, none, none⟩), ("B", ⟨50, 160, none, none⟩),
              ("C", ⟨200, 160, none, none⟩)] ∧
      (posOf (flowchartLayout fanGraph opts50 .vertical) "B").y =
        50 + 60 + 50 ∧
      (posOf (flowchartLayout fanGraph opts50 .vertical) "C").y =
        (posOf (flowchartLayout fanGraph opts50 .vertical) "B").y ∧
      (posOf (flowchartLayout fanGraph opts50 .vertical) "B").x +
          (posOf (flowchartLayout fanGraph opts50 .vertical) "C").x =
        2 * (posOf (flowchartLayout fanGraph opts50 .vertical) "A").x := by
  with_unfolding_all decide

/-- C5: the extractor classifies the repository's own cloud style — which
contains both `shape=cloud` and the substring `ellipse` — as `ellipse`, not
`cloud`: the `ellipse` test runs before the `cloud` test in the
classification chain, so the claimed cloud-wins ordering is violated. -/
theorem C5_cloud_style_classified_ellipse :
    classifyShapeType (getShapeStyle "cloud" "#dae8fc" "#6c8ebf") =
        "ellipse" ∧
      strIncludes (getShapeStyle "cloud" "#dae8fc" "#6c8ebf") "shape=cloud" =
        true ∧
      strIncludes (getShapeStyle "cloud" "#dae8fc" "#6c8ebf") "ellipse" =
        true := by
  with_unfolding_all decide

/-- C6 (counterexample): adjacency lists may store ids of absent shapes: for
the document with one shape A and one edge A→T, the extractor leaves
`outgoing[A] = [T]` although T resolves to no shape — the claimed list-level
invariant fails (only the key-level half holds, see the amended claim). -/
theorem C6_counterexample :
    mapGet (parseDiagramRecords [⟨"A", "A", "rounded=0", 0, 0, 100, 60⟩]
        [⟨"e1", "", "A", "T"⟩]).outgoing "A" = some ["T"] ∧
      mapGet (parseDiagramRecords [⟨"A", "A", "rounded=0", 0, 0, 100, 60⟩]
        [⟨"e1", "", "A", "T"⟩]).shapes "T" = none ∧
      (parseDiagramRecords [⟨"A", "A", "rounded=0", 0, 0, 100, 60⟩]
        [⟨"e1", "", "A", "T"⟩]).edges = [⟨"e1", "A", "T", ""⟩] := by
  with_unfolding_all decide

/-- C6 (amended): every key of the outgoing and incoming maps is the id of a
present shape (the three maps are keyed identically), every edge record is
appended to the edge list, and an edge endpoint absent from the shapes map
creates no adjacency key — but the adjacency list of a present endpoint may
contain ids of absent shapes (see the counterexample). -/
theorem C6_adjacency_keys :
    ∀ (shapeRecs : List ShapeRecord) (edgeRecs : List EdgeRecord),
      mapKeys (parseDiagramRecords shapeRecs edgeRecs).outgoing =
          mapKeys (parseDiagramRecords shapeRecs edgeRecs).shapes ∧
        mapKeys (parseDiagramRecords shapeRecs edgeRecs).incoming =
          mapKeys (parseDiagramRecords shapeRecs edgeRecs).shapes ∧
        (parseDiagramRecords shapeRecs edgeRecs).edges =
          edgeRecs.map (fun r => ⟨r.id, r.source, r.target, r.value⟩) := by
  intro shapeRecs edgeRecs
  unfold parseDiagramRecords
  obtain ⟨hout, hin, hedges⟩ :=
    shapeFold_spec shapeRecs ⟨[], [], [], []⟩ rfl rfl
  obtain ⟨hsh2, hout2, hin2, hedges2⟩ :=
    edgeFold_spec edgeRecs (shapeRecs.foldl addShapeRecord ⟨[], [], [], []⟩)
  refine ⟨?_, ?_, ?_⟩
  · rw [hout2, hsh2, hout]
  · rw [hin2, hsh2, hin]
  · rw [hedges2, hedges]
    rfl

/-- C7 (counterexample): the multiplier table does not assign 1.0 to
rectangle (it assigns 1.05), cylinder's multiplier is not strictly below
hexagon's (they are equal at 1.3), and triangle's multiplier exceeds
ellipse's (1.6 > 1.4), refuting the claimed strict ordering. -/
theorem C7_counterexample :
    shapeMultiplier (some "rectangle") = 1.05 ∧
      shapeMultiplier (some "rectangle") ≠ 1 ∧
      shapeMultiplier (some "cylinder") = shapeMultiplier (some "hexagon") ∧
      shapeMultiplier (some "ellipse") < shapeMultiplier (some "triangle") := by
  with_unfolding_all decide

/-- C7 (amended): the table assigns rectangle 1.05, step 1.1,
parallelogram = trapezoid 1.15, cylinder = hexagon 1.3, ellipse 1.4,
cloud 1.5, triangle 1.6 and rhombus 1.8; every recognized kind gets a
multiplier strictly greater than 1.0 and at most rhombus's, the largest; the
lookup is total, falling back to 1.0 for an unknown kind and for no kind. -/
theorem C7_multiplier_table :
    (shapeMultiplier (some "rectangle") = 1.05 ∧
      shapeMultiplier (some "step") = 1.1 ∧
      shapeMultiplier (some "parallelogram") = 1.15 ∧
      shapeMultiplier (some "trapezoid") = 1.15 ∧
      shapeMultiplier (some "cylinder") = 1.3 ∧
      shapeMultiplier (some "hexagon") = 1.3 ∧
      shapeMultiplier (some "ellipse") = 1.4 ∧
      shapeMultiplier (some "cloud") = 1.5 ∧
      shapeMultiplier (some "triangle") = 1.6 ∧
      shapeMultiplier (some "rhombus") = 1.8) ∧
    (∀ k ∈ ["rectangle", "step", "parallelogram", "trapezoid", "cylinder",
        "hexagon", "triangle", "ellipse", "cloud", "rhombus"],
      1 < shapeMultiplier (some k) ∧
        shapeMultiplier (some k) ≤ shapeMultiplier (some "rhombus")) ∧
    shapeMultiplier none = 1 ∧
    (∀ k : String, SHAPE_PADDING_MULTIPLIER k = none →
      shapeMultiplier (some k) = 1) := by
  refine ⟨by with_unfolding_all decide, by with_unfolding_all decide, rfl, ?_⟩
  intro k hk
  simp [shapeMultiplier, hk]

/-- C7 (witness): the amended table theorem applied to cylinder and to an
unrecognized kind string. -/
theorem C7_multiplier_table_witness :
    (1 < shapeMultiplier (some "cylinder") ∧
      shapeMultiplier (some "cylinder") ≤ shapeMultiplier (some "rhombus")) ∧
    shapeMultiplier (some "swimlane") = 1 :=
  ⟨C7_multiplier_table.2.1 "cylinder" (by decide),
    C7_multiplier_table.2.2.2 "swimlane" (by with_unfolding_all decide)⟩

/-- C8 (counterexample): the text-fit calculator applied to the empty string
does not return the minimum dimensions exactly: with the default wrap width
and no kind it returns height 52 (one padded line), not `minHeight` 40. -/
theorem C8_counterexample :
    calculateTextDimensions "" 320 none = ⟨80, 52⟩ ∧
      (calculateTextDimensions "" 320 none).height ≠ MIN_HEIGHT := by
  with_unfolding_all decide

/-- C8 (amended): for every wrap width and kind, the empty string gets width
`minWidth` exactly; its height is `max(minHeight, ceil(52 · multiplier))` —
the empty string still counts as one line of height `lineHeight` plus
vertical padding — which is 52, not `minHeight`, at the default width with
no kind. -/
theorem C8_empty_text_dimensions :
    (∀ (maxWidth : ℚ) (kind : Option String),
      (calculateTextDimensions "" maxWidth kind).width = MIN_WIDTH) ∧
    (∀ kind : Option String,
      (calculateTextDimensions "" 320 kind).height =
        max MIN_HEIGHT ((⌈(52 : ℚ) * shapeMultiplier kind⌉ : ℤ) : ℚ)) ∧
    calculateTextDimensions "" 320 none = ⟨80, 52⟩ := by
  refine ⟨?_, ?_, by with_unfolding_all decide⟩
  · intro maxWidth kind
    show max MIN_WIDTH
      (((("".replace "\\n" "\n").splitOn "\n").foldl
        (textLineStep maxWidth) (0, 0)).1 + HORIZONTAL_PADDING) = MIN_WIDTH
    rw [show ("".replace "\\n" "\n").splitOn "\n" = [""] from by
          with_unfolding_all decide,
      List.foldl_cons, List.foldl_nil, textLineStep_empty]
    split
    · next h =>
      show max MIN_WIDTH
        (max 0 (maxWidth - HORIZONTAL_PADDING) + HORIZONTAL_PADDING) = MIN_WIDTH
      rw [max_eq_left h.le]
      norm_num [MIN_WIDTH, HORIZONTAL_PADDING]
    · show max MIN_WIDTH (max 0 0 + HORIZONTAL_PADDING) = MIN_WIDTH
      norm_num [MIN_WIDTH, HORIZONTAL_PADDING]
  · intro kind
    show max MIN_HEIGHT
      ((⌈(((((("".replace "\\n" "\n").splitOn "\n").foldl
            (textLineStep 320) (0, 0)).2 : ℤ) : ℚ) * LINE_HEIGHT +
          VERTICAL_PADDING) * shapeMultiplier kind⌉ : ℤ) : ℚ) =
      max MIN_HEIGHT ((⌈(52 : ℚ) * shapeMultiplier kind⌉ : ℤ) : ℚ)
    rw [show ("".replace "\\n" "\n").splitOn "\n" = [""] from by
          with_unfolding_all decide,
      List.foldl_cons, List.foldl_nil,
      show textLineStep 320 (0, 0) "" = ((0 : ℚ), (1 : ℤ)) from by
        with_unfolding_all decide]
    norm_num [LINE_HEIGHT, VERTICAL_PADDING]

/-- C9 (counterexample): a single shape with a self-loop does not keep level
0: processing the self-referencing edge revisits A with incoming level 1,
and the revisit rule raises the recorded level, leaving final level 1. -/
theorem C9_counterexample :
    flowchartLevels selfLoopGraph .vertical = [("A", 1)] ∧
      levelOf selfLoopGraph .vertical "A" ≠ 0 := by
  with_unfolding_all decide

/-- C9 (amended): the single shape with a self-loop is still laid out as one
node (the result binds exactly A), but the self-referencing edge advances its
own level to 1 through the raise-on-revisit rule, so A is placed one level
further along the main axis than the start coordinate. -/
theorem C9_self_loop_level_raised :
    flowchartLevels selfLoopGraph .vertical = [("A", 1)] ∧
      flowchartLayout selfLoopGraph opts50 .vertical =
        some [("A", ⟨50, 160, none, none⟩)] := by
  with_unfolding_all decide

/-- C10: the grid layout reads only the shapes map and the options: two
graphs with identical shapes maps receive identical grid position maps no
matter how their edge lists and adjacency indices differ. -/
theorem C10_grid_depends_only_on_shapes :
    ∀ (g₁ g₂ : DiagramGraph) (options : LayoutOptions),
      g₁.shapes = g₂.shapes →
      gridLayout g₁ options = gridLayout g₂ options := by
  intro g₁ g₂ options h
  unfold gridLayout
  rw [h]

/-- C10 (witness): the diamond graph and its edge-free variant share a shapes
map and receive the same grid layout. -/
theorem C10_grid_witness :
    gridLayout diamondGraph opts50 = gridLayout diamondGraphNoEdges opts50 :=
  C10_grid_depends_only_on_shapes diamondGraph diamondGraphNoEdges opts50 rfl

end DrawioMcp
